import Mathlib

/-!
Verification development for the mfm-fan-cult-manager repository.

The Python sources under `mfm_fan_cult/` are shallowly embedded here:

* `content.py` — `FanCultContent`: account lookup and login
  (`_get_account`, `login_user`), download path resolution
  (`_get_download_dir`, `_get_download_path`), RSS channel construction
  (`_get_rss_feed_generator`), and the `account` table definition.
* `content_types/minisodes.py` — `MinisodeContent`: episode ingestion
  (`_update_episodes`, `_create_episode`, `_find_episode`), download
  (`_download_episode`), feed synthesis (`_create_episode_feed`),
  listing (`list`, `format_episode_list`), and the `minisodes` table.
* `content_types/videos.py` — `VideoContent`: the parallel video pipeline
  (`_update_videos`, `_create_video`, `_find_video`, `_download_video`,
  `_create_video_feed`, `list`, `format_video_list`) and the `videos` table.

Network responses (fetched listing pages, per-item detail pages, Vimeo
metadata, HEAD probes, streamed bytes) are modelled as input data: each
candidate record carries the values the scraper would have parsed out of
the fetched HTML, and HEAD / stream results are passed as parameters.
Datetimes are modelled as natural numbers ordered as the underlying
timestamps are. The filesystem is an explicit record of files and
directories threaded through the download and feed operations.

The SQLAlchemy session is modelled with the durable (committed) rows kept
separate from rows staged by `db.add`: `db.add` appends to the pending
list, `db.commit` is the single point where pending rows become durable.
Queries issued through the same session see committed and pending rows
(the library flushes pending rows inside the open transaction before a
query runs, which is the default session configuration), and
`one_or_none` raises when more than one row matches, modelled with
`Except`.
-/

/-- Base URL constant from `FanCultContent.base_url`. -/
def base_url : String := "https://myfavoritemurder.com"

/-- Row of the `minisodes` table (`MinisodeContent.table`). -/
structure Episode where
  minisode_id : Nat
  title : String
  description : String
  date : Nat
  url : String
  image : String
  audio : String
deriving DecidableEq, Repr

/-- Row of the `videos` table (`VideoContent.table`). -/
structure Video where
  video_id : Nat
  title : String
  type : String
  date : Nat
  url : String
  image : String
  video : String
  video_image : String
deriving DecidableEq, Repr

/-- Row of the `account` table (`FanCultContent.table`). The password is
kept opaque (the vault encoding is out of scope). -/
structure Account where
  username : String
  password : String
  download_dir : String
deriving DecidableEq, Repr

/-! ### Table definitions

The `table(metadata)` static methods declare the persisted schema. They
are embedded as data so that the declared constraints can be inspected:
one record per `Column(...)` call, plus the list of table-level
constraints appearing in the `Table(...)` call (there are none besides
the columns themselves in all three definitions). -/

/-- A `Column(...)` declaration: name and the constraint-bearing flags. -/
structure ColumnSpec where
  name : String
  primaryKey : Bool
  unique : Bool
  nullable : Bool
deriving DecidableEq, Repr

/-- A `Table(...)` declaration: columns plus table-level unique
constraints (each one the list of column names it covers). -/
structure TableSpec where
  name : String
  columns : List ColumnSpec
  uniqueConstraints : List (List String)
deriving DecidableEq, Repr

/-- The `account` table from `FanCultContent.table`. -/
def accountTable : TableSpec :=
  { name := "account"
    columns :=
      [ { name := "username", primaryKey := true, unique := true, nullable := false }
      , { name := "password", primaryKey := false, unique := false, nullable := false }
      , { name := "download_dir", primaryKey := false, unique := false, nullable := true }
      , { name := "last_updated", primaryKey := false, unique := false, nullable := false } ]
    uniqueConstraints := [] }

/-- The `minisodes` table from `MinisodeContent.table`. -/
def minisodesTable : TableSpec :=
  { name := "minisodes"
    columns :=
      [ { name := "minisode_id", primaryKey := true, unique := false, nullable := false }
      , { name := "title", primaryKey := false, unique := false, nullable := false }
      , { name := "description", primaryKey := false, unique := false, nullable := false }
      , { name := "date", primaryKey := false, unique := false, nullable := false }
      , { name := "url", primaryKey := false, unique := false, nullable := false }
      , { name := "image", primaryKey := false, unique := false, nullable := false }
      , { name := "audio", primaryKey := false, unique := false, nullable := false }
      , { name := "last_updated", primaryKey := false, unique := false, nullable := false } ]
    uniqueConstraints := [] }

/-- The `videos` table from `VideoContent.table`. -/
def videosTable : TableSpec :=
  { name := "videos"
    columns :=
      [ { name := "video_id", primaryKey := true, unique := false, nullable := false }
      , { name := "title", primaryKey := false, unique := false, nullable := false }
      , { name := "type", primaryKey := false, unique := false, nullable := false }
      , { name := "date", primaryKey := false, unique := false, nullable := false }
      , { name := "url", primaryKey := false, unique := false, nullable := false }
      , { name := "image", primaryKey := false, unique := false, nullable := false }
      , { name := "video", primaryKey := false, unique := false, nullable := false }
      , { name := "video_image", primaryKey := false, unique := false, nullable := false }
      , { name := "last_updated", primaryKey := false, unique := false, nullable := false } ]
    uniqueConstraints := [] }

/-- Whether the schema declares uniqueness over exactly the given column
list: either a table-level unique constraint over those columns, or, for
a single column, a `unique=True` or `primary_key=True` flag on it. -/
def declaresUniqueOn (t : TableSpec) (cols : List String) : Bool :=
  t.uniqueConstraints.contains cols ||
    (match cols with
     | [c] => (t.columns.filter (fun col => col.name == c)).any
        (fun col => col.unique || col.primaryKey)
     | _ => false)

/-! ### Ingestion: candidates and row construction -/

/-- A candidate parsed from one entry of the episodes listing page in
`_update_episodes` / `_create_episode`, carrying the values the scraper
reads from the listing HTML (`title`, `href`, `date`) and from the
per-episode detail page it fetches when the episode is new
(`description`, `image`, `audio`). -/
structure EpCandidate where
  title : String
  href : String
  description : String
  date : Nat
  image : String
  audio : String
deriving DecidableEq, Repr

/-- A candidate parsed from one article of the news grid in
`_update_videos` / `_create_video`. `h1Title` is `none` when the article
has no `h1` element, in which case `_create_video` returns `None`
without touching the store. The Vimeo metadata lookup results
(`thumbnail`, `thumbnailPlay`) are carried in the candidate. -/
structure VidCandidate where
  h1Title : Option String
  href : String
  typeLabel : String
  date : Nat
  vimeoUrl : String
  thumbnail : String
  thumbnailPlay : String
deriving DecidableEq, Repr

/-- De-duplication key of a stored episode row. -/
def epKey (e : Episode) : String × String := (e.title, e.url)

/-- De-duplication key of a stored video row. -/
def vidKey (v : Video) : String × String := (v.title, v.url)

/-- De-duplication key the scanner computes for an episode candidate
(`ep_title`, `ep_url = base_url + href`). -/
def epCandKey (c : EpCandidate) : String × String := (c.title, base_url ++ c.href)

/-- De-duplication key for a video candidate, absent when the article
has no `h1` element. -/
def vidCandKey (c : VidCandidate) : Option (String × String) :=
  c.h1Title.map (fun t => (t, base_url ++ c.href))

/-- The episode row `_create_episode` builds for a new candidate. The
auto-increment id is assigned by the database, not by the scraper; it is
left at 0 here since no claim depends on its value. -/
def mkEpisode (c : EpCandidate) : Episode :=
  { minisode_id := 0
    title := c.title
    description := c.description
    date := c.date
    url := base_url ++ c.href
    image := c.image
    audio := c.audio }

/-- The video row `_create_video` builds for a new candidate with title
`t` (its parsed `h1` text). -/
def mkVideo (c : VidCandidate) (t : String) : Video :=
  { video_id := 0
    title := t
    type := c.typeLabel
    date := c.date
    url := base_url ++ c.href
    image := c.thumbnail
    video := c.vimeoUrl
    video_image := c.thumbnailPlay }

/-- Key-match predicate used by the `filter_by(title=..., url=...)`
queries. -/
def epMatch (title url : String) (e : Episode) : Bool :=
  e.title == title && e.url == url

/-- Key-match predicate for video rows. -/
def vidMatch (title url : String) (v : Video) : Bool :=
  v.title == title && v.url == url

/-- `_find_episode`: `filter_by(title, url).one_or_none()` over the rows
visible to the session. `one_or_none` raises `MultipleResultsFound` when
more than one row matches, modelled as an `Except` error. -/
def findEpisode (visible : List Episode) (title url : String) :
    Except String (Option Episode) :=
  match visible.filter (epMatch title url) with
  | [] => .ok none
  | [e] => .ok (some e)
  | _ => .error "MultipleResultsFound"

/-- `_find_video`: same query shape as `_find_episode`. -/
def findVideo (visible : List Video) (title url : String) :
    Except String (Option Video) :=
  match visible.filter (vidMatch title url) with
  | [] => .ok none
  | [v] => .ok (some v)
  | _ => .error "MultipleResultsFound"

/-- `_create_episode`: compute the key from the listing entry, skip
(`None`) when `_find_episode` finds the key, otherwise build the new row
from the detail page. -/
def createEpisode (visible : List Episode) (c : EpCandidate) :
    Except String (Option Episode) :=
  match findEpisode visible c.title (base_url ++ c.href) with
  | .error e => .error e
  | .ok (some _) => .ok none
  | .ok none => .ok (some (mkEpisode c))

/-- The body of `_create_video` once the article title has been parsed:
the same skip-or-build logic as `createEpisode`. -/
def createVideoTitled (visible : List Video) (c : VidCandidate) (t : String) :
    Except String (Option Video) :=
  match findVideo visible t (base_url ++ c.href) with
  | .error e => .error e
  | .ok (some _) => .ok none
  | .ok none => .ok (some (mkVideo c t))

/-- `_create_video`: return `None` for an article without `h1`,
otherwise continue with the parsed title. -/
def createVideo (visible : List Video) (c : VidCandidate) :
    Except String (Option Video) :=
  match c.h1Title with
  | none => .ok none
  | some t => createVideoTitled visible c t

/-! ### Ingestion: the scan loop and the commit -/

/-- Session state during an ingestion run: the durable rows, the rows
staged with `db.add` (visible to this session, not yet durable), and the
`added` list the loop accumulates. -/
structure IngestState (α : Type) where
  committed : List α
  pending : List α
  added : List α
deriving DecidableEq, Repr

/-- Rows visible to queries issued through the session: durable rows
plus staged rows. -/
def IngestState.visible {α : Type} (st : IngestState α) : List α :=
  st.committed ++ st.pending

/-- The loop body of `_update_episodes`: create (or skip) one candidate;
a created row is both appended to `added` and staged with `db.add`. -/
def epScanStep (st : IngestState Episode) (c : EpCandidate) :
    Except String (IngestState Episode) :=
  match createEpisode st.visible c with
  | .error e => .error e
  | .ok none => .ok st
  | .ok (some ep) =>
      .ok { st with pending := st.pending ++ [ep], added := st.added ++ [ep] }

/-- The scan loop of `_update_episodes` over the parsed candidate list,
in discovery order. A raised exception aborts the loop (and hence the
run) before any commit. -/
def epScan : IngestState Episode → List EpCandidate → Except String (IngestState Episode)
  | st, [] => .ok st
  | st, c :: cs =>
    match epScanStep st c with
    | .error e => .error e
    | .ok st2 => epScan st2 cs

/-- The loop body of `_update_videos`. -/
def vidScanStep (st : IngestState Video) (c : VidCandidate) :
    Except String (IngestState Video) :=
  match createVideo st.visible c with
  | .error e => .error e
  | .ok none => .ok st
  | .ok (some v) =>
      .ok { st with pending := st.pending ++ [v], added := st.added ++ [v] }

/-- The scan loop of `_update_videos`. -/
def vidScan : IngestState Video → List VidCandidate → Except String (IngestState Video)
  | st, [] => .ok st
  | st, c :: cs =>
    match vidScanStep st c with
    | .error e => .error e
    | .ok st2 => vidScan st2 cs

/-- `_update_episodes`: run the scan from a fresh session over the
durable store, then `db.commit()` the staged rows if anything was added.
Returns the new durable store and the `added` list. -/
def updateEpisodes (store : List Episode) (cs : List EpCandidate) :
    Except String (List Episode × List Episode) :=
  match epScan { committed := store, pending := [], added := [] } cs with
  | .error e => .error e
  | .ok st =>
    if st.added.isEmpty then .ok (st.committed, st.added)
    else .ok (st.committed ++ st.pending, st.added)

/-- `_update_videos`: same shape as `updateEpisodes`. -/
def updateVideos (store : List Video) (cs : List VidCandidate) :
    Except String (List Video × List Video) :=
  match vidScan { committed := store, pending := [], added := [] } cs with
  | .error e => .error e
  | .ok st =>
    if st.added.isEmpty then .ok (st.committed, st.added)
    else .ok (st.committed ++ st.pending, st.added)

/-- The de-duplication invariant on a set of rows: no two episode rows
share the (title, url) key. -/
def epKeyUniq (l : List Episode) : Prop :=
  l.Pairwise (fun a b => epKey a ≠ epKey b)

/-- The de-duplication invariant for video rows. -/
def vidKeyUniq (l : List Video) : Prop :=
  l.Pairwise (fun a b => vidKey a ≠ vidKey b)

instance : DecidablePred epKeyUniq := fun l => by
  unfold epKeyUniq; infer_instance

instance : DecidablePred vidKeyUniq := fun l => by
  unfold vidKeyUniq; infer_instance

deriving instance DecidableEq for Except

/-- Sample episode candidate used by concrete witnesses below. -/
def sampleEpCand : EpCandidate :=
  { title := "a", href := "/e/1", description := "d", date := 3,
    image := "i", audio := "http://h/f.m4a" }

/-- Sample video candidate used by concrete witnesses below. -/
def sampleVidCand : VidCandidate :=
  { h1Title := some "v", href := "/v/1", typeLabel := "Live", date := 7,
    vimeoUrl := "http://vm/9", thumbnail := "t", thumbnailPlay := "tp" }

/-- Sample account rows used by concrete witnesses below. -/
def acctA : Account := { username := "a@x.com", password := "p", download_dir := "da" }

/-- Second sample account row. -/
def acctB : Account := { username := "b@x.com", password := "q", download_dir := "db" }

/-! ### Filesystem model and download flow -/

/-- Explicit filesystem state: an association list of files (path to
byte content) and the set of existing directories. -/
structure FS where
  files : List (String × String)
  dirs : List String
deriving DecidableEq, Repr

/-- `os.path.isfile`. -/
def FS.isfile (fs : FS) (p : String) : Bool :=
  fs.files.any (fun kv => kv.1 == p)

/-- `os.path.isdir`. -/
def FS.isdir (fs : FS) (p : String) : Bool :=
  fs.dirs.contains p

/-- Writing a file (creating or replacing the content at the path). -/
def FS.writeFile (fs : FS) (p c : String) : FS :=
  { fs with files := (p, c) :: fs.files.filter (fun kv => kv.1 != p) }

/-- `os.makedirs`. Parent creation is abstracted: paths are opaque keys
here and only the created destination directory is tracked. -/
def FS.makedirs (fs : FS) (p : String) : FS :=
  { fs with dirs := p :: fs.dirs }

/-- `os.path.join` for the two-argument uses in the source. -/
def pathJoin (a b : String) : String := a ++ "/" ++ b

/-- `os.path.basename` of a URL-shaped path: the suffix after the last
slash, computed by a character fold. -/
def basename (p : String) : String :=
  String.mk (p.toList.foldl (fun acc c => if c = '/' then [] else acc ++ [c]) [])

/-- User-visible messages produced by the operations (via
`manager.warning`, `manager.error`, `manager.success`, `click.echo`). -/
inductive Event where
  | warnExists (path : String)
  | echoDownloading (path : String)
  | errNotFound (kind : String) (id : Nat)
  | errDownloadProblem (path : String)
  | rssCreated (path : String)
deriving DecidableEq, Repr

/-- Python `str.capitalize` restricted to the all-lowercase model names
appearing in the source: upper-case the first character. -/
def capitalizeStr (s : String) : String :=
  match s.toList with
  | [] => ""
  | c :: cs => String.mk (c.toUpper :: cs)

/-- `_get_download_dir`: pick the explicit destination or the account
default, append the capitalized model name when requested, and create
the directory when it does not exist. Returns the (possibly updated)
filesystem and the resolved directory. -/
def getDownloadDir (fs : FS) (dest : Option String) (accountDir : String)
    (withModel : Bool) (modelName : String) : FS × String :=
  let d0 := dest.getD accountDir
  let destDir := if withModel then pathJoin d0 (capitalizeStr modelName) else d0
  (if fs.isdir destDir then fs else fs.makedirs destDir, destDir)

/-- `_get_download_path`: refuse an occupied path with a warning; absent
pre-confirmation ask the user (their answer is the `confirmAnswer`
input) and abort on decline; otherwise announce and return the path. -/
def getDownloadPath (fs : FS) (basePath fileName : String)
    (yes confirmAnswer : Bool) : Option String × List Event :=
  let filePath := pathJoin basePath fileName
  if fs.isfile filePath then (none, [Event.warnExists filePath])
  else if !yes then
    (if confirmAnswer then (some filePath, []) else (none, []))
  else (some filePath, [Event.echoDownloading filePath])

/-- `_download_episode`: resolve the file name from the direct audio
URL, resolve the destination path, stream the bytes (the streamed
content is the `streamContent` input), and check the file exists
afterwards. -/
def downloadEpisode (fs : FS) (e : Episode) (episodePath : String)
    (yes confirmAnswer : Bool) (streamContent : String) : FS × List Event :=
  let fileName := basename e.audio
  match getDownloadPath fs episodePath fileName yes confirmAnswer with
  | (none, evs) => (fs, evs)
  | (some filePath, evs) =>
    let fs2 := fs.writeFile filePath streamContent
    if fs2.isfile filePath then (fs2, evs)
    else (fs2, evs ++ [Event.errDownloadProblem filePath])

/-- Suffix test on strings by character lists. -/
def endsWithStr (s suffix : String) : Bool :=
  let sl := s.toList
  let pl := suffix.toList
  sl.drop (sl.length - pl.length) == pl

/-- The file name `_download_video` derives from the resolved stream
title: the title with `.mp4` appended when missing. -/
def vidFileName (streamTitle : String) : String :=
  if endsWithStr streamTitle ".mp4" then streamTitle else streamTitle ++ ".mp4"

/-- `_download_video`: the indirect Vimeo locator is resolved to a
playable stream whose display title is the `streamTitle` input; the rest
mirrors `downloadEpisode` with the library performing the write into the
destination directory. -/
def downloadVideo (fs : FS) (videoPath : String)
    (yes confirmAnswer : Bool) (streamTitle streamContent : String) : FS × List Event :=
  let fileName := vidFileName streamTitle
  match getDownloadPath fs videoPath fileName yes confirmAnswer with
  | (none, evs) => (fs, evs)
  | (some filePath, evs) =>
    let fs2 := fs.writeFile filePath streamContent
    if fs2.isfile filePath then (fs2, evs)
    else (fs2, evs ++ [Event.errDownloadProblem filePath])

/-- `get_episode`: primary-key lookup, reporting an error when the id is
unknown. -/
def getEpisode (store : List Episode) (id : Nat) : Option Episode :=
  store.find? (fun e => e.minisode_id == id)

/-- `get_video`: primary-key lookup for videos. -/
def getVideo (store : List Video) (id : Nat) : Option Video :=
  store.find? (fun v => v.video_id == id)

/-- The `download` command for minisodes: resolve (and possibly create)
the destination directory, then look up the id, then download. -/
def downloadMinisodeCmd (fs : FS) (store : List Episode) (id : Nat)
    (yes : Bool) (dest : Option String) (accountDir : String)
    (confirmAnswer : Bool) (streamContent : String) : FS × List Event :=
  let (fs1, episodePath) := getDownloadDir fs dest accountDir true "minisodes"
  match getEpisode store id with
  | none => (fs1, [Event.errNotFound "minisode" id])
  | some e => downloadEpisode fs1 e episodePath yes confirmAnswer streamContent

/-- The `download` command for videos. -/
def downloadVideoCmd (fs : FS) (store : List Video) (id : Nat)
    (yes : Bool) (dest : Option String) (accountDir : String)
    (confirmAnswer : Bool) (streamTitle streamContent : String) : FS × List Event :=
  let (fs1, videoPath) := getDownloadDir fs dest accountDir true "videos"
  match getVideo store id with
  | none => (fs1, [Event.errNotFound "video" id])
  | some _ => downloadVideo fs1 videoPath yes confirmAnswer streamTitle streamContent

/-! ### Account lookup and login -/

/-- `_get_account`: no account asks the user to login first (`None`);
exactly one account is used directly; with several accounts the user is
prompted to pick an index, the prompt defaulting to 0 when no explicit
choice is entered (`promptChoice = none`). The prompt machinery
re-prompts on invalid input, so an out-of-range model input falls back
to the first account. -/
def getAccount : List Account → Option Nat → Option Account
  | [], _ => none
  | [a], _ => some a
  | a :: b :: rest, promptChoice =>
    some ((a :: b :: rest).getD (promptChoice.getD 0) a)

/-- `login_user`: resolve the account, then submit the login request
(whose transport and server outcome is the `loginSucceeds` input);
failures return `None` after an error message. -/
def loginUser (accounts : List Account) (promptChoice : Option Nat)
    (loginSucceeds : Bool) : Option Account :=
  match getAccount accounts promptChoice with
  | none => none
  | some a => if loginSucceeds then some a else none

/-! ### Ordering, listings and the limit -/

/-- Ascending publish-date order on episode rows
(`order_by(model.date.asc())`). -/
def epDateAsc (a b : Episode) : Prop := a.date ≤ b.date

/-- Descending publish-date order on episode rows
(`order_by(model.date.desc())`). -/
def epDateDesc (a b : Episode) : Prop := b.date ≤ a.date

/-- Descending publish-date order on video rows. -/
def vidDateDesc (a b : Video) : Prop := b.date ≤ a.date

instance : DecidableRel epDateAsc := fun a b => Nat.decLe a.date b.date
instance : DecidableRel epDateDesc := fun a b => Nat.decLe b.date a.date
instance : DecidableRel vidDateDesc := fun a b => Nat.decLe b.date a.date

instance : IsTotal Episode epDateAsc := ⟨fun a b => Nat.le_total a.date b.date⟩
instance : IsTrans Episode epDateAsc := ⟨fun _ _ _ h1 h2 => Nat.le_trans h1 h2⟩
instance : IsTotal Episode epDateDesc := ⟨fun a b => Nat.le_total b.date a.date⟩
instance : IsTrans Episode epDateDesc := ⟨fun _ _ _ h1 h2 => Nat.le_trans h2 h1⟩
instance : IsTotal Video vidDateDesc := ⟨fun a b => Nat.le_total b.date a.date⟩
instance : IsTrans Video vidDateDesc := ⟨fun _ _ _ h1 h2 => Nat.le_trans h2 h1⟩

/-- The episode rows as returned by an `order_by(date.asc())` query. -/
def episodeFeedQuery (store : List Episode) : List Episode :=
  List.insertionSort epDateAsc store

/-- The episode rows as returned by an `order_by(date.desc())` query. -/
def episodeListQuery (store : List Episode) : List Episode :=
  List.insertionSort epDateDesc store

/-- The video rows as returned by an `order_by(date.desc())` query. -/
def videoListQuery (store : List Video) : List Video :=
  List.insertionSort vidDateDesc store

/-- The video rows for feed synthesis:
`order_by(date.desc()).limit(limit)`. -/
def videoFeedQuery (store : List Video) (limit : Nat) : List Video :=
  (videoListQuery store).take limit

/-- SQL `LIKE` with wildcards on both sides: substring match. -/
def likeSub (text pat : String) : Bool :=
  let t := text.toList
  let p := pat.toList
  (List.range (t.length + 1)).any (fun i => (t.drop i).take p.length == p)

/-- The matching episode rows of the `list` command, in query order:
descending by date, then the optional free-text filter over title or
description. -/
def episodeMatches (store : List Episode) (search : Option String) : List Episode :=
  let q := episodeListQuery store
  match search with
  | some s => q.filter (fun e => likeSub e.title s || likeSub e.description s)
  | none => q

/-- The episode `list` command: `number` is the `-n` option (`none` when
not passed on the command line, in which case the declared default 10
applies); a positive value limits the query, any other value leaves it
unlimited. -/
def episodesListCmd (store : List Episode) (search : Option String)
    (number : Option Int) : List Episode :=
  let n : Int := number.getD 10
  let q := episodeMatches store search
  if 0 < n then q.take n.toNat else q

/-- The matching video rows of the `list` command: descending by date,
then the optional category substring filter, then the optional title
search. -/
def videoMatches (store : List Video) (typeFilter search : Option String) : List Video :=
  let q := videoListQuery store
  let q := match typeFilter with
    | some t => q.filter (fun v => likeSub v.type t)
    | none => q
  match search with
  | some s => q.filter (fun v => likeSub v.title s)
  | none => q

/-- The video `list` command with its `-n` default of 10. -/
def videosListCmd (store : List Video) (typeFilter search : Option String)
    (number : Option Int) : List Video :=
  let n : Int := number.getD 10
  let q := videoMatches store typeFilter search
  if 0 < n then q.take n.toNat else q

/-! ### Feed synthesis -/

/-- Channel-level metadata set up by `_get_rss_feed_generator`. -/
structure FeedChannel where
  title : String
  subtitle : String
  authorName : String
  authorEmail : String
  copyrightText : String
  logo : String
  link : String
  language : String
  podcastExt : Bool
deriving DecidableEq, Repr

/-- Logo URL constant from `FanCultContent.logo`. -/
def fcLogo : String := "https://emorel.li/dl/fc_logo.png"

/-- `_get_rss_feed_generator`: populate the channel from the model name
and the class constants; `podcast=True` additionally loads the podcast
extension with the iTunes author, owner and image. The copyright year
comes from the wall clock and is passed in. -/
def getRssFeedGenerator (modelName : String) (podcast : Bool) (year : Nat) : FeedChannel :=
  { title := "MFM Fan Cult " ++ capitalizeStr modelName
    subtitle := "Generated feed of Fan Cult exclusive " ++ modelName ++ "."
    authorName := "Exactly Right"
    authorEmail := "exactlyrightmedia@gmail.com"
    copyrightText := toString year ++ " Exactly Right"
    logo := fcLogo
    link := base_url
    language := "en"
    podcastExt := podcast }

/-- One RSS entry of the minisode feed, as populated by
`_create_episode_feed` for a stored episode. -/
structure EpFeedEntry where
  id : String
  title : String
  description : String
  published : Nat
  link : String
  itunesAuthor : String
  itunesImage : String
  enclosureUrl : String
  enclosureLength : Option String
  enclosureType : Option String
deriving DecidableEq, Repr

/-- One RSS entry of the video feed, as populated by
`_create_video_feed`. -/
structure VidFeedEntry where
  id : String
  title : String
  content : String
  description : String
  published : Nat
  link : String
  authorName : String
  mediaThumbnail : String
  mediaContent : String
deriving DecidableEq, Repr

/-- A synthesized minisode feed document. -/
structure EpFeedDoc where
  channel : FeedChannel
  entries : List EpFeedEntry
deriving DecidableEq, Repr

/-- A synthesized video feed document. -/
structure VidFeedDoc where
  channel : FeedChannel
  mediaExt : Bool
  entries : List VidFeedEntry
deriving DecidableEq, Repr

/-- The entry `_create_episode_feed` builds for one episode. The HEAD
probe of the audio URL returns a content type and length, supplied by
the `head` input (type first, length second, each absent when the
response carries no such header). -/
def mkEpisodeEntry (head : String → Option String × Option String) (e : Episode) :
    EpFeedEntry :=
  let hd := head e.audio
  { id := toString e.minisode_id
    title := e.title
    description := e.description
    published := e.date
    link := e.url
    itunesAuthor := "Exactly Right"
    itunesImage := e.image
    enclosureUrl := e.audio
    enclosureLength := hd.2
    enclosureType := hd.1 }

/-- The CDATA content block `_create_video_feed` builds for one video. -/
def vidContentBlock (v : Video) : String :=
  "<p>" ++ v.type ++ "</p><p><a href=\"" ++ v.url ++ "\"><img src=\"" ++
    v.video_image ++ "\"/></a></p>"

/-- The entry `_create_video_feed` builds for one video. -/
def mkVideoEntry (v : Video) : VidFeedEntry :=
  { id := toString v.video_id
    title := v.title
    content := vidContentBlock v
    description := v.type
    published := v.date
    link := v.url
    authorName := "Exactly Right"
    mediaThumbnail := v.image
    mediaContent := v.video }

/-- The minisode feed entries in feed order: every stored episode,
ascending by publish date. -/
def episodeFeedEntries (store : List Episode)
    (head : String → Option String × Option String) : List EpFeedEntry :=
  (episodeFeedQuery store).map (mkEpisodeEntry head)

/-- The video feed entries in feed order: the `limit` most recent
videos, descending by publish date. -/
def videoFeedEntries (store : List Video) (limit : Nat) : List VidFeedEntry :=
  (videoFeedQuery store limit).map mkVideoEntry

/-- Abstract serialization of a minisode feed document into the bytes
`rss_file` writes; it records the whole document. Only its injectivity
in the document matters to the claims, never the XML text itself. -/
def serializeEpFeed (d : EpFeedDoc) : String :=
  toString (repr d)

/-- Abstract serialization of a video feed document. -/
def serializeVidFeed (d : VidFeedDoc) : String :=
  toString (repr d)

/-- `_create_episode_feed`: build the document from all stored episodes
in ascending date order; with `print` set, echo it to the console and
return without touching the filesystem, otherwise write it to
`minisodes.xml` under the destination directory and report success.
Returns the filesystem, the console output (the echoed document, if
any) and the messages. -/
def createEpisodeFeed (fs : FS) (store : List Episode) (fileDir : String)
    (printMode : Bool) (head : String → Option String × Option String)
    (year : Nat) : FS × Option EpFeedDoc × List Event :=
  let filePath := pathJoin fileDir "minisodes.xml"
  let doc : EpFeedDoc :=
    { channel := getRssFeedGenerator "minisodes" true year
      entries := episodeFeedEntries store head }
  if printMode then (fs, some doc, [])
  else (fs.writeFile filePath (serializeEpFeed doc), none, [Event.rssCreated filePath])

/-- `_create_video_feed`: as `createEpisodeFeed` with the media
extension, the newest-first order, the `limit` bound and the
`videos.xml` file name. -/
def createVideoFeed (fs : FS) (store : List Video) (fileDir : String)
    (printMode : Bool) (limit : Nat) (year : Nat) : FS × Option VidFeedDoc × List Event :=
  let filePath := pathJoin fileDir "videos.xml"
  let doc : VidFeedDoc :=
    { channel := getRssFeedGenerator "videos" false year
      mediaExt := true
      entries := videoFeedEntries store limit }
  if printMode then (fs, some doc, [])
  else (fs.writeFile filePath (serializeVidFeed doc), none, [Event.rssCreated filePath])

/-! ### Tabular listing format -/

/-- Rendering of the stored date by `strftime` with format
`%d %B %Y`. The calendar text is abstracted to an injective rendering of
the abstract date value; the claims concern only where the rendered date
is placed, never its text. -/
def formatDate (d : Nat) : String := "day " ++ toString d

/-- Words of a text, as `textwrap.shorten` collapses whitespace. -/
def splitWords (text : String) : List String :=
  (text.splitOn " ").filter (fun w => w ≠ "")

/-- Space-joined words. -/
def joinWords (ws : List String) : String := String.intercalate " " ws

/-- The largest number of leading words whose join still fits in `width`
together with the ` [...]` placeholder (6 characters). -/
def fitCount (ws : List String) (width : Nat) : Nat :=
  ((List.range (ws.length + 1)).filter
    (fun k => (joinWords (ws.take k)).length + 6 ≤ width)).foldr Nat.max 0

/-- `textwrap.shorten text width`: collapse whitespace; keep the text
when it fits, otherwise drop trailing words and append the ` [...]`
placeholder. -/
def shorten (text : String) (width : Nat) : String :=
  let ws := splitWords text
  let collapsed := joinWords ws
  if collapsed.length ≤ width then collapsed
  else
    let k := fitCount ws width
    if k = 0 then "[...]" else joinWords (ws.take k) ++ " [...]"

/-- A rendered table: the header row and the data rows handed to
`tabulate`. -/
structure TableRender where
  headers : List String
  rows : List (List String)
deriving DecidableEq, Repr

/-- `format_episode_list`: the header labels and, for each episode, the
row `[id, formatted date, title, shortened description, shortened
url]` in that order. -/
def format_episode_list (episodes : List Episode) : TableRender :=
  { headers := ["ID", "Title", "Description", "Date", "URL"]
    rows := episodes.map (fun e =>
      [ toString e.minisode_id
      , formatDate e.date
      , e.title
      , shorten e.description 50
      , shorten e.url 50 ]) }

/-- `format_video_list`: headers and rows for the video listing (here
the order of row values does agree with the headers). -/
def format_video_list (videos : List Video) : TableRender :=
  { headers := ["ID", "Date", "Title", "Type", "URL"]
    rows := videos.map (fun v =>
      [ toString v.video_id
      , formatDate v.date
      , shorten v.title 50
      , v.type
      , shorten v.url 50 ]) }

/-- A store of 11 episode rows with distinct dates, used to exercise the
listing limit concretely. -/
def c7Store : List Episode :=
  (List.range 11).map (fun i =>
    { minisode_id := i, title := toString i, description := "d", date := i,
      url := toString i, image := "im", audio := "au" })

/-- A store of 11 video rows with distinct dates. -/
def c7VStore : List Video :=
  (List.range 11).map (fun i =>
    { video_id := i, title := toString i, type := "Live", date := i,
      url := toString i, image := "im", video := "vi", video_image := "vp" })

/-! ### Lemmas about the episode ingestion pipeline -/

/-- In a pairwise-distinct list, a predicate forcing relatedness of any
two satisfying elements is satisfied at most once. -/
theorem filter_length_le_one {α : Type} {R : α → α → Prop} {p : α → Bool}
    {l : List α} (hu : l.Pairwise R)
    (hp : ∀ a b, p a = true → p b = true → R a b → False) :
    (l.filter p).length ≤ 1 := by
  induction l with
  | nil => simp
  | cons a l ih =>
    rcases List.pairwise_cons.mp hu with ⟨ha, hl⟩
    by_cases hpa : p a = true
    · have hnil : l.filter p = [] := by
        refine List.filter_eq_nil_iff.mpr (fun b hb hpb => ?_)
        exact hp a b hpa hpb (ha b hb)
      simp [List.filter_cons, hpa, hnil]
    · simpa [List.filter_cons, hpa] using ih hl

theorem epMatch_iff {t u : String} {e : Episode} :
    epMatch t u e = true ↔ epKey e = (t, u) := by
  simp [epMatch, epKey, Prod.ext_iff]

theorem findEpisode_eq_ok_none {visible : List Episode} {t u : String} :
    findEpisode visible t u = .ok none ↔ visible.filter (epMatch t u) = [] := by
  unfold findEpisode
  rcases h : visible.filter (epMatch t u) with _ | ⟨x, _ | ⟨y, xs⟩⟩ <;> simp

theorem findEpisode_ok_some {visible : List Episode} {t u : String} {e : Episode}
    (h : findEpisode visible t u = .ok (some e)) :
    e ∈ visible ∧ epKey e = (t, u) := by
  unfold findEpisode at h
  rcases hf : visible.filter (epMatch t u) with _ | ⟨x, _ | ⟨y, xs⟩⟩ <;> rw [hf] at h
  · simp at h
  · simp only [Except.ok.injEq, Option.some.injEq] at h
    subst h
    have hx := List.mem_filter.mp (by rw [hf]; exact List.mem_singleton_self x)
    exact ⟨hx.1, epMatch_iff.mp hx.2⟩
  · simp at h

theorem epKeyUniq_filter_le_one {visible : List Episode} {t u : String}
    (hu : epKeyUniq visible) :
    (visible.filter (epMatch t u)).length ≤ 1 := by
  refine filter_length_le_one hu (fun a b hpa hpb hR => ?_)
  exact hR ((epMatch_iff.mp hpa).trans (epMatch_iff.mp hpb).symm)

theorem findEpisode_total {visible : List Episode} {t u : String}
    (hu : epKeyUniq visible) :
    ∃ r, findEpisode visible t u = .ok r := by
  have hlen := epKeyUniq_filter_le_one (t := t) (u := u) hu
  unfold findEpisode
  rcases hf : visible.filter (epMatch t u) with _ | ⟨x, _ | ⟨y, xs⟩⟩
  · exact ⟨none, rfl⟩
  · exact ⟨some x, rfl⟩
  · rw [hf] at hlen; simp at hlen

theorem findEpisode_found {visible : List Episode} {t u : String}
    (hu : epKeyUniq visible) (hmem : ∃ e ∈ visible, epKey e = (t, u)) :
    ∃ x, findEpisode visible t u = .ok (some x) := by
  obtain ⟨e, he, hk⟩ := hmem
  have hmemf : e ∈ visible.filter (epMatch t u) :=
    List.mem_filter.mpr ⟨he, epMatch_iff.mpr hk⟩
  have hlen := epKeyUniq_filter_le_one (t := t) (u := u) hu
  unfold findEpisode
  rcases hf : visible.filter (epMatch t u) with _ | ⟨x, _ | ⟨y, xs⟩⟩
  · rw [hf] at hmemf; simp at hmemf
  · exact ⟨x, rfl⟩
  · rw [hf] at hlen; simp at hlen

theorem epKey_mkEpisode (c : EpCandidate) : epKey (mkEpisode c) = epCandKey c := rfl

theorem createEpisode_ok_some {visible : List Episode} {c : EpCandidate} {ep : Episode}
    (h : createEpisode visible c = .ok (some ep)) :
    ep = mkEpisode c ∧ ∀ x ∈ visible, epKey x ≠ epCandKey c := by
  unfold createEpisode at h
  rcases hf : findEpisode visible c.title (base_url ++ c.href) with e | ⟨_ | e⟩ <;>
    rw [hf] at h <;> simp only [Except.ok.injEq, Option.some.injEq] at h
  · cases h
  · refine ⟨h.symm, fun x hx hk => ?_⟩
    have hnil := findEpisode_eq_ok_none.mp hf
    have : x ∈ visible.filter (epMatch c.title (base_url ++ c.href)) :=
      List.mem_filter.mpr ⟨hx, epMatch_iff.mpr hk⟩
    rw [hnil] at this
    simp at this
  · cases h

theorem createEpisode_ok_none {visible : List Episode} {c : EpCandidate}
    (h : createEpisode visible c = .ok none) :
    ∃ e ∈ visible, epKey e = epCandKey c := by
  unfold createEpisode at h
  rcases hf : findEpisode visible c.title (base_url ++ c.href) with e | ⟨_ | e⟩ <;>
    rw [hf] at h
  · simp at h
  · simp at h
  · exact ⟨e, (findEpisode_ok_some hf).1, (findEpisode_ok_some hf).2⟩

theorem createEpisode_total {visible : List Episode} {c : EpCandidate}
    (hu : epKeyUniq visible) :
    ∃ r, createEpisode visible c = .ok r := by
  unfold createEpisode
  obtain ⟨r, hr⟩ := findEpisode_total (t := c.title) (u := base_url ++ c.href) hu
  rw [hr]
  cases r with
  | none => exact ⟨some (mkEpisode c), rfl⟩
  | some e => exact ⟨none, rfl⟩

theorem createEpisode_skip {visible : List Episode} {c : EpCandidate}
    (hu : epKeyUniq visible) (hmem : ∃ e ∈ visible, epKey e = epCandKey c) :
    createEpisode visible c = .ok none := by
  unfold createEpisode
  obtain ⟨x, hx⟩ := findEpisode_found hu hmem
  rw [hx]

theorem visible_init {α : Type} (store : List α) :
    ({ committed := store, pending := [], added := [] } : IngestState α).visible = store := by
  simp [IngestState.visible]

theorem visible_push {α : Type} (st : IngestState α) (x : α) :
    ({ st with pending := st.pending ++ [x], added := st.added ++ [x] } :
      IngestState α).visible = st.visible ++ [x] := by
  simp [IngestState.visible]

theorem epScanStep_ok {st st1 : IngestState Episode} {c : EpCandidate}
    (h : epScanStep st c = .ok st1) :
    (createEpisode st.visible c = .ok none ∧ st1 = st) ∨
      ∃ ep, createEpisode st.visible c = .ok (some ep) ∧
        st1 = { st with pending := st.pending ++ [ep], added := st.added ++ [ep] } := by
  unfold epScanStep at h
  rcases hc : createEpisode st.visible c with e | ⟨_ | ep⟩ <;> rw [hc] at h
  · simp at h
  · exact Or.inl ⟨rfl, by simpa using h.symm⟩
  · exact Or.inr ⟨ep, rfl, by simpa using h.symm⟩

theorem epScan_cons_ok {st st1 : IngestState Episode} {c : EpCandidate}
    {cs : List EpCandidate} (h : epScanStep st c = .ok st1) :
    epScan st (c :: cs) = epScan st1 cs := by
  conv_lhs => rw [epScan]
  rw [h]

theorem epScan_committed : ∀ (cs : List EpCandidate) (st st2 : IngestState Episode),
    epScan st cs = .ok st2 → st2.committed = st.committed := by
  intro cs
  induction cs with
  | nil =>
    intro st st2 h
    simp only [epScan, Except.ok.injEq] at h
    rw [h]
  | cons c cs ih =>
    intro st st2 h
    rcases hstep : epScanStep st c with e | st1
    · unfold epScan at h; rw [hstep] at h; simp at h
    · rw [epScan_cons_ok hstep] at h
      have h2 := ih _ _ h
      rcases epScanStep_ok hstep with ⟨_, rfl⟩ | ⟨ep, _, rfl⟩
      · exact h2
      · exact h2

theorem epScan_visible_mono : ∀ (cs : List EpCandidate) (st st2 : IngestState Episode),
    epScan st cs = .ok st2 → ∀ x ∈ st.visible, x ∈ st2.visible := by
  intro cs
  induction cs with
  | nil =>
    intro st st2 h
    simp only [epScan, Except.ok.injEq] at h
    rw [h]
    exact fun x hx => hx
  | cons c cs ih =>
    intro st st2 h x hx
    rcases hstep : epScanStep st c with e | st1
    · unfold epScan at h; rw [hstep] at h; simp at h
    · rw [epScan_cons_ok hstep] at h
      rcases epScanStep_ok hstep with ⟨_, rfl⟩ | ⟨ep, _, rfl⟩
      · exact ih _ _ h x hx
      · exact ih _ _ h x (by rw [visible_push]; exact List.mem_append_left _ hx)

theorem epScan_pending_added : ∀ (cs : List EpCandidate) (st st2 : IngestState Episode),
    epScan st cs = .ok st2 → st.pending = st.added → st2.pending = st2.added := by
  intro cs
  induction cs with
  | nil =>
    intro st st2 h he
    simp only [epScan, Except.ok.injEq] at h
    rw [← h]; exact he
  | cons c cs ih =>
    intro st st2 h he
    rcases hstep : epScanStep st c with e | st1
    · unfold epScan at h; rw [hstep] at h; simp at h
    · rw [epScan_cons_ok hstep] at h
      rcases epScanStep_ok hstep with ⟨_, rfl⟩ | ⟨ep, _, rfl⟩
      · exact ih _ _ h he
      · exact ih _ _ h (by simp [he])

theorem epScan_covers : ∀ (cs : List EpCandidate) (st st2 : IngestState Episode),
    epScan st cs = .ok st2 → ∀ c ∈ cs, ∃ e ∈ st2.visible, epKey e = epCandKey c := by
  intro cs
  induction cs with
  | nil => intro st st2 _ c hc; simp at hc
  | cons c0 cs ih =>
    intro st st2 h c hc
    rcases hstep : epScanStep st c0 with e | st1
    · unfold epScan at h; rw [hstep] at h; simp at h
    · rw [epScan_cons_ok hstep] at h
      rcases List.mem_cons.mp hc with rfl | hcs
      · rcases epScanStep_ok hstep with ⟨hnone, rfl⟩ | ⟨ep, hsome, rfl⟩
        · obtain ⟨e, he, hk⟩ := createEpisode_ok_none hnone
          exact ⟨e, epScan_visible_mono cs _ _ h e he, hk⟩
        · refine ⟨mkEpisode c, ?_, epKey_mkEpisode c⟩
          refine epScan_visible_mono cs _ _ h _ ?_
          rcases createEpisode_ok_some hsome with ⟨rfl, _⟩
          rw [visible_push]
          exact List.mem_append_right _ (List.mem_singleton_self _)
      · rcases epScanStep_ok hstep with ⟨_, rfl⟩ | ⟨ep, _, rfl⟩
        · exact ih _ _ h c hcs
        · exact ih _ _ h c hcs

theorem epKeyUniq_push {visible : List Episode} {ep : Episode}
    (hu : epKeyUniq visible) (hnew : ∀ x ∈ visible, epKey x ≠ epKey ep) :
    epKeyUniq (visible ++ [ep]) := by
  refine List.pairwise_append.mpr ⟨hu, List.pairwise_singleton _ _, ?_⟩
  intro a ha b hb
  rw [List.mem_singleton.mp hb]
  exact hnew a ha

theorem epScanStep_skip {st : IngestState Episode} {c : EpCandidate}
    (h : createEpisode st.visible c = .ok none) : epScanStep st c = .ok st := by
  unfold epScanStep
  rw [h]

theorem epScanStep_stage {st : IngestState Episode} {c : EpCandidate} {ep : Episode}
    (h : createEpisode st.visible c = .ok (some ep)) :
    epScanStep st c =
      .ok { st with pending := st.pending ++ [ep], added := st.added ++ [ep] } := by
  unfold epScanStep
  rw [h]

theorem epScan_uniq_total : ∀ (cs : List EpCandidate) (st : IngestState Episode),
    epKeyUniq st.visible →
    ∃ st2, epScan st cs = .ok st2 ∧ epKeyUniq st2.visible := by
  intro cs
  induction cs with
  | nil => intro st hu; exact ⟨st, rfl, hu⟩
  | cons c cs ih =>
    intro st hu
    obtain ⟨r, hr⟩ := createEpisode_total (c := c) hu
    cases r with
    | none =>
      obtain ⟨st2, hs, hu2⟩ := ih st hu
      exact ⟨st2, by rw [epScan_cons_ok (epScanStep_skip hr)]; exact hs, hu2⟩
    | some ep =>
      rcases createEpisode_ok_some hr with ⟨rfl, hnew⟩
      have hu1 : epKeyUniq ({ st with pending := st.pending ++ [mkEpisode c], added := st.added ++ [mkEpisode c] } : IngestState Episode).visible := by
        rw [visible_push]
        exact epKeyUniq_push hu hnew
      obtain ⟨st2, hs, hu2⟩ := ih _ hu1
      exact ⟨st2, by rw [epScan_cons_ok (epScanStep_stage hr)]; exact hs, hu2⟩

theorem epScan_skip_all : ∀ (cs : List EpCandidate) (st : IngestState Episode),
    epKeyUniq st.visible →
    (∀ c ∈ cs, ∃ e ∈ st.visible, epKey e = epCandKey c) →
    epScan st cs = .ok st := by
  intro cs
  induction cs with
  | nil => intro st _ _; rfl
  | cons c cs ih =>
    intro st hu hcov
    have hskip : createEpisode st.visible c = .ok none :=
      createEpisode_skip hu (hcov c (List.mem_cons_self c cs))
    rw [epScan_cons_ok (epScanStep_skip hskip)]
    exact ih st hu (fun c2 hc2 => hcov c2 (List.mem_cons_of_mem c hc2))

theorem epScan_visible_run {store : List Episode} {cs : List EpCandidate}
    {st : IngestState Episode}
    (hs : epScan { committed := store, pending := [], added := [] } cs = .ok st) :
    st.visible = store ++ st.added := by
  have hc : st.committed = store := epScan_committed cs _ _ hs
  have hpa : st.pending = st.added := epScan_pending_added cs _ _ hs rfl
  unfold IngestState.visible
  rw [hc, hpa]

theorem updateEpisodes_of_scan {store : List Episode} {cs : List EpCandidate}
    {st : IngestState Episode}
    (hs : epScan { committed := store, pending := [], added := [] } cs = .ok st) :
    updateEpisodes store cs = .ok (store ++ st.added, st.added) := by
  have hc : st.committed = store := epScan_committed cs _ _ hs
  have hpa : st.pending = st.added := epScan_pending_added cs _ _ hs rfl
  unfold updateEpisodes
  rw [hs]
  rcases hadd : st.added with _ | ⟨x, xs⟩
  · simp [hadd, hc]
  · simp [hc, hpa, hadd]

theorem updateEpisodes_shape {store ns added : List Episode} {cs : List EpCandidate}
    (h : updateEpisodes store cs = .ok (ns, added)) : ns = store ++ added := by
  rcases hs : epScan { committed := store, pending := [], added := [] } cs with e | st
  · have herr : updateEpisodes store cs = .error e := by
      unfold updateEpisodes
      rw [hs]
    rw [herr] at h
    simp at h
  · have h2 := updateEpisodes_of_scan hs
    rw [h2] at h
    simp only [Except.ok.injEq, Prod.mk.injEq] at h
    rw [← h.1, ← h.2]

theorem updateEpisodes_uniq_run {store : List Episode} (cs : List EpCandidate)
    (hu : epKeyUniq store) :
    ∃ st : IngestState Episode,
      updateEpisodes store cs = .ok (store ++ st.added, st.added) ∧
      epKeyUniq (store ++ st.added) ∧
      ∀ c ∈ cs, ∃ e ∈ store ++ st.added, epKey e = epCandKey c := by
  have hu0 : epKeyUniq
      ({ committed := store, pending := [], added := [] } : IngestState Episode).visible := by
    rw [visible_init]; exact hu
  obtain ⟨st, hs, hu2⟩ := epScan_uniq_total cs _ hu0
  have hv : st.visible = store ++ st.added := epScan_visible_run hs
  refine ⟨st, updateEpisodes_of_scan hs, ?_, ?_⟩
  · rw [← hv]; exact hu2
  · intro c hc
    rw [← hv]
    exact epScan_covers cs _ _ hs c hc

theorem updateEpisodes_idem {store : List Episode} {cs : List EpCandidate}
    (hu : epKeyUniq store) :
    ∃ ns added, updateEpisodes store cs = .ok (ns, added) ∧
      updateEpisodes ns cs = .ok (ns, []) := by
  obtain ⟨st, hrun, hu2, hcov⟩ := updateEpisodes_uniq_run cs hu
  refine ⟨store ++ st.added, st.added, hrun, ?_⟩
  have hu0 : epKeyUniq
      ({ committed := store ++ st.added, pending := [], added := [] } :
        IngestState Episode).visible := by
    rw [visible_init]; exact hu2
  have hcov0 : ∀ c ∈ cs, ∃ e ∈
      ({ committed := store ++ st.added, pending := [], added := [] } :
        IngestState Episode).visible, epKey e = epCandKey c := by
    rw [visible_init]; exact hcov
  have hs2 := epScan_skip_all cs _ hu0 hcov0
  have h2 := updateEpisodes_of_scan hs2
  simpa using h2

/-! ### Lemmas about the video ingestion pipeline -/

theorem vidMatch_iff {t u : String} {v : Video} :
    vidMatch t u v = true ↔ vidKey v = (t, u) := by
  simp [vidMatch, vidKey, Prod.ext_iff]

theorem findVideo_eq_ok_none {visible : List Video} {t u : String} :
    findVideo visible t u = .ok none ↔ visible.filter (vidMatch t u) = [] := by
  unfold findVideo
  rcases h : visible.filter (vidMatch t u) with _ | ⟨x, _ | ⟨y, xs⟩⟩ <;> simp

theorem findVideo_ok_some {visible : List Video} {t u : String} {v : Video}
    (h : findVideo visible t u = .ok (some v)) :
    v ∈ visible ∧ vidKey v = (t, u) := by
  unfold findVideo at h
  rcases hf : visible.filter (vidMatch t u) with _ | ⟨x, _ | ⟨y, xs⟩⟩ <;> rw [hf] at h
  · simp at h
  · simp only [Except.ok.injEq, Option.some.injEq] at h
    subst h
    have hx := List.mem_filter.mp (by rw [hf]; exact List.mem_singleton_self x)
    exact ⟨hx.1, vidMatch_iff.mp hx.2⟩
  · simp at h

theorem vidKeyUniq_filter_le_one {visible : List Video} {t u : String}
    (hu : vidKeyUniq visible) :
    (visible.filter (vidMatch t u)).length ≤ 1 := by
  refine filter_length_le_one hu (fun a b hpa hpb hR => ?_)
  exact hR ((vidMatch_iff.mp hpa).trans (vidMatch_iff.mp hpb).symm)

theorem findVideo_total {visible : List Video} {t u : String}
    (hu : vidKeyUniq visible) :
    ∃ r, findVideo visible t u = .ok r := by
  have hlen := vidKeyUniq_filter_le_one (t := t) (u := u) hu
  unfold findVideo
  rcases hf : visible.filter (vidMatch t u) with _ | ⟨x, _ | ⟨y, xs⟩⟩
  · exact ⟨none, rfl⟩
  · exact ⟨some x, rfl⟩
  · rw [hf] at hlen; simp at hlen

theorem findVideo_found {visible : List Video} {t u : String}
    (hu : vidKeyUniq visible) (hmem : ∃ v ∈ visible, vidKey v = (t, u)) :
    ∃ x, findVideo visible t u = .ok (some x) := by
  obtain ⟨v, hv, hk⟩ := hmem
  have hmemf : v ∈ visible.filter (vidMatch t u) :=
    List.mem_filter.mpr ⟨hv, vidMatch_iff.mpr hk⟩
  have hlen := vidKeyUniq_filter_le_one (t := t) (u := u) hu
  unfold findVideo
  rcases hf : visible.filter (vidMatch t u) with _ | ⟨x, _ | ⟨y, xs⟩⟩
  · rw [hf] at hmemf; simp at hmemf
  · exact ⟨x, rfl⟩
  · rw [hf] at hlen; simp at hlen

theorem vidKey_mkVideo (c : VidCandidate) (t : String) :
    vidKey (mkVideo c t) = (t, base_url ++ c.href) := rfl

theorem createVideo_no_title {visible : List Video} {c : VidCandidate}
    (h : c.h1Title = none) : createVideo visible c = .ok none := by
  unfold createVideo
  rw [h]

theorem createVideo_with_title {visible : List Video} {c : VidCandidate} {t : String}
    (h : c.h1Title = some t) : createVideo visible c = createVideoTitled visible c t := by
  unfold createVideo
  rw [h]

theorem createVideoTitled_ok_some {visible : List Video} {c : VidCandidate}
    {t : String} {v : Video}
    (h : createVideoTitled visible c t = .ok (some v)) :
    v = mkVideo c t ∧ ∀ x ∈ visible, vidKey x ≠ (t, base_url ++ c.href) := by
  unfold createVideoTitled at h
  rcases hf : findVideo visible t (base_url ++ c.href) with e | ⟨_ | v2⟩ <;>
    rw [hf] at h <;> simp only [Except.ok.injEq, Option.some.injEq] at h
  · cases h
  · refine ⟨h.symm, fun x hx hk => ?_⟩
    have hnil := findVideo_eq_ok_none.mp hf
    have hm : x ∈ visible.filter (vidMatch t (base_url ++ c.href)) :=
      List.mem_filter.mpr ⟨hx, vidMatch_iff.mpr hk⟩
    rw [hnil] at hm
    simp at hm
  · cases h

theorem createVideo_ok_some {visible : List Video} {c : VidCandidate} {v : Video}
    (h : createVideo visible c = .ok (some v)) :
    ∃ t, c.h1Title = some t ∧ v = mkVideo c t ∧
      ∀ x ∈ visible, vidKey x ≠ (t, base_url ++ c.href) := by
  rcases ht : c.h1Title with _ | t
  · rw [createVideo_no_title ht] at h
    simp at h
  · rw [createVideo_with_title ht] at h
    obtain ⟨h1, h2⟩ := createVideoTitled_ok_some h
    exact ⟨t, rfl, h1, h2⟩

theorem createVideo_ok_none {visible : List Video} {c : VidCandidate}
    (h : createVideo visible c = .ok none) :
    ∀ k, vidCandKey c = some k → ∃ v ∈ visible, vidKey v = k := by
  intro k hk
  rcases ht : c.h1Title with _ | t
  · rw [vidCandKey, ht] at hk; simp at hk
  · have hk2 : k = (t, base_url ++ c.href) := by
      rw [vidCandKey, ht] at hk
      simpa using hk.symm
    subst hk2
    rw [createVideo_with_title ht] at h
    unfold createVideoTitled at h
    rcases hf : findVideo visible t (base_url ++ c.href) with e | ⟨_ | v2⟩ <;>
      rw [hf] at h
    · simp at h
    · simp at h
    · obtain ⟨hv, hvk⟩ := findVideo_ok_some hf
      exact ⟨v2, hv, hvk⟩

theorem createVideo_total {visible : List Video} {c : VidCandidate}
    (hu : vidKeyUniq visible) :
    ∃ r, createVideo visible c = .ok r := by
  rcases ht : c.h1Title with _ | t
  · exact ⟨none, createVideo_no_title ht⟩
  · rw [createVideo_with_title ht]
    unfold createVideoTitled
    obtain ⟨r, hr⟩ := findVideo_total (t := t) (u := base_url ++ c.href) hu
    rw [hr]
    cases r with
    | none => exact ⟨some (mkVideo c t), rfl⟩
    | some v => exact ⟨none, rfl⟩

theorem createVideo_skip {visible : List Video} {c : VidCandidate}
    (hu : vidKeyUniq visible)
    (hmem : ∀ k, vidCandKey c = some k → ∃ v ∈ visible, vidKey v = k) :
    createVideo visible c = .ok none := by
  rcases ht : c.h1Title with _ | t
  · exact createVideo_no_title ht
  · rw [createVideo_with_title ht]
    unfold createVideoTitled
    have hk : vidCandKey c = some (t, base_url ++ c.href) := by
      rw [vidCandKey, ht]; rfl
    obtain ⟨x, hx⟩ := findVideo_found hu (hmem _ hk)
    rw [hx]

theorem vidScanStep_ok {st st1 : IngestState Video} {c : VidCandidate}
    (h : vidScanStep st c = .ok st1) :
    (createVideo st.visible c = .ok none ∧ st1 = st) ∨
      ∃ v, createVideo st.visible c = .ok (some v) ∧
        st1 = { st with pending := st.pending ++ [v], added := st.added ++ [v] } := by
  unfold vidScanStep at h
  rcases hc : createVideo st.visible c with e | ⟨_ | v⟩ <;> rw [hc] at h
  · simp at h
  · exact Or.inl ⟨rfl, by simpa using h.symm⟩
  · exact Or.inr ⟨v, rfl, by simpa using h.symm⟩

theorem vidScan_cons_ok {st st1 : IngestState Video} {c : VidCandidate}
    {cs : List VidCandidate} (h : vidScanStep st c = .ok st1) :
    vidScan st (c :: cs) = vidScan st1 cs := by
  conv_lhs => rw [vidScan]
  rw [h]

theorem vidScan_committed : ∀ (cs : List VidCandidate) (st st2 : IngestState Video),
    vidScan st cs = .ok st2 → st2.committed = st.committed := by
  intro cs
  induction cs with
  | nil =>
    intro st st2 h
    simp only [vidScan, Except.ok.injEq] at h
    rw [h]
  | cons c cs ih =>
    intro st st2 h
    rcases hstep : vidScanStep st c with e | st1
    · unfold vidScan at h; rw [hstep] at h; simp at h
    · rw [vidScan_cons_ok hstep] at h
      have h2 := ih _ _ h
      rcases vidScanStep_ok hstep with ⟨_, rfl⟩ | ⟨v, _, rfl⟩
      · exact h2
      · exact h2

theorem vidScan_visible_mono : ∀ (cs : List VidCandidate) (st st2 : IngestState Video),
    vidScan st cs = .ok st2 → ∀ x ∈ st.visible, x ∈ st2.visible := by
  intro cs
  induction cs with
  | nil =>
    intro st st2 h
    simp only [vidScan, Except.ok.injEq] at h
    rw [h]
    exact fun x hx => hx
  | cons c cs ih =>
    intro st st2 h x hx
    rcases hstep : vidScanStep st c with e | st1
    · unfold vidScan at h; rw [hstep] at h; simp at h
    · rw [vidScan_cons_ok hstep] at h
      rcases vidScanStep_ok hstep with ⟨_, rfl⟩ | ⟨v, _, rfl⟩
      · exact ih _ _ h x hx
      · exact ih _ _ h x (by rw [visible_push]; exact List.mem_append_left _ hx)

theorem vidScan_pending_added : ∀ (cs : List VidCandidate) (st st2 : IngestState Video),
    vidScan st cs = .ok st2 → st.pending = st.added → st2.pending = st2.added := by
  intro cs
  induction cs with
  | nil =>
    intro st st2 h he
    simp only [vidScan, Except.ok.injEq] at h
    rw [← h]; exact he
  | cons c cs ih =>
    intro st st2 h he
    rcases hstep : vidScanStep st c with e | st1
    · unfold vidScan at h; rw [hstep] at h; simp at h
    · rw [vidScan_cons_ok hstep] at h
      rcases vidScanStep_ok hstep with ⟨_, rfl⟩ | ⟨v, _, rfl⟩
      · exact ih _ _ h he
      · exact ih _ _ h (by simp [he])

theorem vidScan_covers : ∀ (cs : List VidCandidate) (st st2 : IngestState Video),
    vidScan st cs = .ok st2 →
    ∀ c ∈ cs, ∀ k, vidCandKey c = some k → ∃ v ∈ st2.visible, vidKey v = k := by
  intro cs
  induction cs with
  | nil => intro st st2 _ c hc; simp at hc
  | cons c0 cs ih =>
    intro st st2 h c hc k hk
    rcases hstep : vidScanStep st c0 with e | st1
    · unfold vidScan at h; rw [hstep] at h; simp at h
    · rw [vidScan_cons_ok hstep] at h
      rcases List.mem_cons.mp hc with rfl | hcs
      · rcases vidScanStep_ok hstep with ⟨hnone, rfl⟩ | ⟨v, hsome, rfl⟩
        · obtain ⟨e, he, hek⟩ := createVideo_ok_none hnone k hk
          exact ⟨e, vidScan_visible_mono cs _ _ h e he, hek⟩
        · obtain ⟨t, ht, rfl, _⟩ := createVideo_ok_some hsome
          have hk2 : k = (t, base_url ++ c.href) := by
            rw [vidCandKey, ht] at hk
            simpa using hk.symm
          refine ⟨mkVideo c t, ?_, by rw [vidKey_mkVideo, hk2]⟩
          refine vidScan_visible_mono cs _ _ h _ ?_
          rw [visible_push]
          exact List.mem_append_right _ (List.mem_singleton_self _)
      · rcases vidScanStep_ok hstep with ⟨_, rfl⟩ | ⟨v, _, rfl⟩
        · exact ih _ _ h c hcs k hk
        · exact ih _ _ h c hcs k hk

theorem vidKeyUniq_push {visible : List Video} {v : Video}
    (hu : vidKeyUniq visible) (hnew : ∀ x ∈ visible, vidKey x ≠ vidKey v) :
    vidKeyUniq (visible ++ [v]) := by
  refine List.pairwise_append.mpr ⟨hu, List.pairwise_singleton _ _, ?_⟩
  intro a ha b hb
  rw [List.mem_singleton.mp hb]
  exact hnew a ha

theorem vidScanStep_skip {st : IngestState Video} {c : VidCandidate}
    (h : createVideo st.visible c = .ok none) : vidScanStep st c = .ok st := by
  unfold vidScanStep
  rw [h]

theorem vidScanStep_stage {st : IngestState Video} {c : VidCandidate} {v : Video}
    (h : createVideo st.visible c = .ok (some v)) :
    vidScanStep st c =
      .ok { st with pending := st.pending ++ [v], added := st.added ++ [v] } := by
  unfold vidScanStep
  rw [h]

theorem vidScan_uniq_total : ∀ (cs : List VidCandidate) (st : IngestState Video),
    vidKeyUniq st.visible →
    ∃ st2, vidScan st cs = .ok st2 ∧ vidKeyUniq st2.visible := by
  intro cs
  induction cs with
  | nil => intro st hu; exact ⟨st, rfl, hu⟩
  | cons c cs ih =>
    intro st hu
    obtain ⟨r, hr⟩ := createVideo_total (c := c) hu
    cases r with
    | none =>
      obtain ⟨st2, hs, hu2⟩ := ih st hu
      exact ⟨st2, by rw [vidScan_cons_ok (vidScanStep_skip hr)]; exact hs, hu2⟩
    | some v =>
      obtain ⟨t, ht, rfl, hnew⟩ := createVideo_ok_some hr
      have hu1 : vidKeyUniq ({ st with pending := st.pending ++ [mkVideo c t], added := st.added ++ [mkVideo c t] } : IngestState Video).visible := by
        rw [visible_push]
        refine vidKeyUniq_push hu (fun x hx => ?_)
        rw [vidKey_mkVideo]
        exact hnew x hx
      obtain ⟨st2, hs, hu2⟩ := ih _ hu1
      exact ⟨st2, by rw [vidScan_cons_ok (vidScanStep_stage hr)]; exact hs, hu2⟩

theorem vidScan_skip_all : ∀ (cs : List VidCandidate) (st : IngestState Video),
    vidKeyUniq st.visible →
    (∀ c ∈ cs, ∀ k, vidCandKey c = some k → ∃ v ∈ st.visible, vidKey v = k) →
    vidScan st cs = .ok st := by
  intro cs
  induction cs with
  | nil => intro st _ _; rfl
  | cons c cs ih =>
    intro st hu hcov
    have hskip : createVideo st.visible c = .ok none :=
      createVideo_skip hu (hcov c (List.mem_cons_self c cs))
    rw [vidScan_cons_ok (vidScanStep_skip hskip)]
    exact ih st hu (fun c2 hc2 => hcov c2 (List.mem_cons_of_mem c hc2))

theorem vidScan_visible_run {store : List Video} {cs : List VidCandidate}
    {st : IngestState Video}
    (hs : vidScan { committed := store, pending := [], added := [] } cs = .ok st) :
    st.visible = store ++ st.added := by
  have hc : st.committed = store := vidScan_committed cs _ _ hs
  have hpa : st.pending = st.added := vidScan_pending_added cs _ _ hs rfl
  unfold IngestState.visible
  rw [hc, hpa]

theorem updateVideos_of_scan {store : List Video} {cs : List VidCandidate}
    {st : IngestState Video}
    (hs : vidScan { committed := store, pending := [], added := [] } cs = .ok st) :
    updateVideos store cs = .ok (store ++ st.added, st.added) := by
  have hc : st.committed = store := vidScan_committed cs _ _ hs
  have hpa : st.pending = st.added := vidScan_pending_added cs _ _ hs rfl
  unfold updateVideos
  rw [hs]
  rcases hadd : st.added with _ | ⟨x, xs⟩
  · simp [hadd, hc]
  · simp [hc, hpa, hadd]

theorem updateVideos_shape {store ns added : List Video} {cs : List VidCandidate}
    (h : updateVideos store cs = .ok (ns, added)) : ns = store ++ added := by
  rcases hs : vidScan { committed := store, pending := [], added := [] } cs with e | st
  · have herr : updateVideos store cs = .error e := by
      unfold updateVideos
      rw [hs]
    rw [herr] at h
    simp at h
  · have h2 := updateVideos_of_scan hs
    rw [h2] at h
    simp only [Except.ok.injEq, Prod.mk.injEq] at h
    rw [← h.1, ← h.2]

theorem updateVideos_uniq_run {store : List Video} (cs : List VidCandidate)
    (hu : vidKeyUniq store) :
    ∃ st : IngestState Video,
      updateVideos store cs = .ok (store ++ st.added, st.added) ∧
      vidKeyUniq (store ++ st.added) ∧
      ∀ c ∈ cs, ∀ k, vidCandKey c = some k → ∃ v ∈ store ++ st.added, vidKey v = k := by
  have hu0 : vidKeyUniq
      ({ committed := store, pending := [], added := [] } : IngestState Video).visible := by
    rw [visible_init]; exact hu
  obtain ⟨st, hs, hu2⟩ := vidScan_uniq_total cs _ hu0
  have hv : st.visible = store ++ st.added := vidScan_visible_run hs
  refine ⟨st, updateVideos_of_scan hs, ?_, ?_⟩
  · rw [← hv]; exact hu2
  · intro c hc k hk
    rw [← hv]
    exact vidScan_covers cs _ _ hs c hc k hk

theorem updateVideos_idem {store : List Video} {cs : List VidCandidate}
    (hu : vidKeyUniq store) :
    ∃ ns added, updateVideos store cs = .ok (ns, added) ∧
      updateVideos ns cs = .ok (ns, []) := by
  obtain ⟨st, hrun, hu2, hcov⟩ := updateVideos_uniq_run cs hu
  refine ⟨store ++ st.added, st.added, hrun, ?_⟩
  have hu0 : vidKeyUniq
      ({ committed := store ++ st.added, pending := [], added := [] } :
        IngestState Video).visible := by
    rw [visible_init]; exact hu2
  have hcov0 : ∀ c ∈ cs, ∀ k, vidCandKey c = some k → ∃ v ∈
      ({ committed := store ++ st.added, pending := [], added := [] } :
        IngestState Video).visible, vidKey v = k := by
    rw [visible_init]; exact hcov
  have hs2 := vidScan_skip_all cs _ hu0 hcov0
  have h2 := updateVideos_of_scan hs2
  simpa using h2

/-! ### Claim C1 -/

/-- C1 counterexample: contrary to the claim, neither per-kind table
declares a unique constraint over (title, url) — the only declared key
is the auto-increment primary key, and no table-level unique constraint
appears in either `Table(...)` call. -/
theorem c1_counterexample :
    declaresUniqueOn minisodesTable ["title", "url"] = false ∧
    declaresUniqueOn videosTable ["title", "url"] = false := by
  decide

/-- C1 (amended): the per-kind tables declare no unique constraint on
(title, url); nevertheless, processing candidates never produces two
persisted rows sharing a (title, url) pair, because every candidate is
checked against the rows visible to the session (committed and already
staged) before being staged: an update run started from a store
satisfying the de-duplication invariant commits a store that still
satisfies it. -/
theorem c1_dedup_preserved (store : List Episode) (cs : List EpCandidate)
    (vstore : List Video) (vcs : List VidCandidate)
    (h1 : epKeyUniq store) (h2 : vidKeyUniq vstore) :
    (∀ ns added, updateEpisodes store cs = .ok (ns, added) → epKeyUniq ns) ∧
    (∀ ns added, updateVideos vstore vcs = .ok (ns, added) → vidKeyUniq ns) := by
  constructor
  · intro ns added h
    obtain ⟨st, hrun, hu2, _⟩ := updateEpisodes_uniq_run cs h1
    rw [hrun] at h
    simp only [Except.ok.injEq, Prod.mk.injEq] at h
    rw [← h.1]
    exact hu2
  · intro ns added h
    obtain ⟨st, hrun, hu2, _⟩ := updateVideos_uniq_run vcs h2
    rw [hrun] at h
    simp only [Except.ok.injEq, Prod.mk.injEq] at h
    rw [← h.1]
    exact hu2

/-- C1 witness: a concrete run over two identical candidates (same
(title, url) twice) against an empty store persists exactly one row per
kind, and the resulting stores satisfy the invariant. -/
theorem c1_witness :
    epKeyUniq [mkEpisode sampleEpCand] ∧ vidKeyUniq [mkVideo sampleVidCand "v"] := by
  have h := c1_dedup_preserved [] [sampleEpCand, sampleEpCand] []
    [sampleVidCand, sampleVidCand] (by decide) (by decide)
  exact ⟨h.1 [mkEpisode sampleEpCand] [mkEpisode sampleEpCand] (by decide),
    h.2 [mkVideo sampleVidCand "v"] [mkVideo sampleVidCand "v"] (by decide)⟩

/-! ### Claim C2 -/

/-- C2: in an ingestion run of either kind, the durable store is
untouched while any prefix of the candidate list is being processed
(staging only accumulates in the session), and a completed run commits
exactly the staged items as one batch: the committed store is the prior
store plus the whole added batch. -/
theorem c2_atomic_batch (store : List Episode) (cs : List EpCandidate)
    (vstore : List Video) (vcs : List VidCandidate) :
    (∀ (k : Nat) (st : IngestState Episode),
      epScan { committed := store, pending := [], added := [] } (cs.take k) = .ok st →
        st.committed = store) ∧
    (∀ ns added, updateEpisodes store cs = .ok (ns, added) → ns = store ++ added) ∧
    (∀ (k : Nat) (st : IngestState Video),
      vidScan { committed := vstore, pending := [], added := [] } (vcs.take k) = .ok st →
        st.committed = vstore) ∧
    (∀ ns added, updateVideos vstore vcs = .ok (ns, added) → ns = vstore ++ added) := by
  refine ⟨?_, ?_, ?_, ?_⟩
  · intro k st h
    exact epScan_committed _ _ _ h
  · intro ns added h
    exact updateEpisodes_shape h
  · intro k st h
    exact vidScan_committed _ _ _ h
  · intro ns added h
    exact updateVideos_shape h

/-- C2 witness: with one concrete candidate, the state after the scan
has staged the row without touching the committed store, and the
committed result of the full run is the old store plus the batch. -/
theorem c2_witness :
    ({ committed := [], pending := [mkEpisode sampleEpCand],
       added := [mkEpisode sampleEpCand] } : IngestState Episode).committed =
      ([] : List Episode) ∧
    ([mkEpisode sampleEpCand] : List Episode) = [] ++ [mkEpisode sampleEpCand] := by
  have h := c2_atomic_batch [] [sampleEpCand] [] [sampleVidCand]
  exact ⟨h.1 1 _ (by decide), h.2.1 _ _ (by decide)⟩

/-! ### Claim C6 -/

/-- C6: ingestion is idempotent — over a store satisfying the
de-duplication invariant, running an update returns some batch, and
running it again over an unchanged candidate list adds zero items, every
candidate being skipped because its key is already present. -/
theorem c6_idempotent (store : List Episode) (cs : List EpCandidate)
    (vstore : List Video) (vcs : List VidCandidate)
    (h1 : epKeyUniq store) (h2 : vidKeyUniq vstore) :
    (∃ ns added, updateEpisodes store cs = .ok (ns, added) ∧
      updateEpisodes ns cs = .ok (ns, [])) ∧
    (∃ ns added, updateVideos vstore vcs = .ok (ns, added) ∧
      updateVideos ns vcs = .ok (ns, [])) :=
  ⟨updateEpisodes_idem h1, updateVideos_idem h2⟩

/-- C6 witness: idempotence at a concrete store and candidate list for
both kinds. -/
theorem c6_witness :
    (∃ ns added, updateEpisodes [] [sampleEpCand] = .ok (ns, added) ∧
      updateEpisodes ns [sampleEpCand] = .ok (ns, [])) ∧
    (∃ ns added, updateVideos [] [sampleVidCand] = .ok (ns, added) ∧
      updateVideos ns [sampleVidCand] = .ok (ns, [])) :=
  c6_idempotent [] [sampleEpCand] [] [sampleVidCand] (by decide) (by decide)

/-! ### Claim C3 -/

/-- C3: feed synthesis orders episode entries ascending by publish date
and video entries descending by publish date, while the listing queries
of both kinds are ordered descending by publish date. -/
theorem c3_ordering (store : List Episode)
    (head : String → Option String × Option String)
    (vstore : List Video) (limit : Nat) :
    List.Sorted (fun a b : EpFeedEntry => a.published ≤ b.published)
      (episodeFeedEntries store head) ∧
    List.Sorted (fun a b : VidFeedEntry => b.published ≤ a.published)
      (videoFeedEntries vstore limit) ∧
    List.Sorted epDateDesc (episodeListQuery store) ∧
    List.Sorted vidDateDesc (videoListQuery vstore) := by
  refine ⟨?_, ?_, ?_, ?_⟩
  · exact List.Pairwise.map _ (fun a b h => h)
      (List.sorted_insertionSort epDateAsc store)
  · refine List.Pairwise.map _ (fun a b h => h) ?_
    exact List.Pairwise.sublist (List.take_sublist _ _)
      (List.sorted_insertionSort vidDateDesc vstore)
  · exact List.sorted_insertionSort epDateDesc store
  · exact List.sorted_insertionSort vidDateDesc vstore

/-! ### Claim C7 -/

theorem episodeMatches_sorted (store : List Episode) (search : Option String) :
    List.Sorted epDateDesc (episodeMatches store search) := by
  unfold episodeMatches episodeListQuery
  cases search with
  | none => exact List.sorted_insertionSort epDateDesc store
  | some s => exact (List.sorted_insertionSort epDateDesc store).filter _

theorem videoMatches_sorted (store : List Video) (typeFilter search : Option String) :
    List.Sorted vidDateDesc (videoMatches store typeFilter search) := by
  unfold videoMatches videoListQuery
  have h0 : List.Sorted vidDateDesc (List.insertionSort vidDateDesc store) :=
    List.sorted_insertionSort vidDateDesc store
  cases typeFilter with
  | none => cases search with
    | none => exact h0
    | some s => exact h0.filter _
  | some t => cases search with
    | none => exact h0.filter _
    | some s => exact (h0.filter _).filter _

/-- C7 counterexample: with 11 stored episodes and the count option not
passed, the listing returns 10 rows (the declared CLI default), not all
11 matching rows — the claim says an unset N returns all matches. -/
theorem c7_counterexample :
    (episodesListCmd c7Store none none).length = 10 ∧
    (episodeMatches c7Store none).length = 11 := by decide

/-- C7 (amended): a listing query of either kind with an explicit
requested count N, 0 < N ≤ number of matching items, returns exactly N
items, namely the first N of the date-descending matches; N ≤ 0 removes
the limit and returns all matches; an unset N falls back to the declared
default of 10, returning the first 10 matches (all of them when fewer
match). -/
theorem c7_limit_semantics (store : List Episode) (search : Option String) (n : Int)
    (vstore : List Video) (vtype vsearch : Option String) (m : Int)
    (hn : 0 < n) (hnle : n.toNat ≤ (episodeMatches store search).length)
    (hm : 0 < m) (hmle : m.toNat ≤ (videoMatches vstore vtype vsearch).length) :
    ((episodesListCmd store search (some n)).length = n.toNat ∧
     episodesListCmd store search (some n) = (episodeMatches store search).take n.toNat ∧
     List.Sorted epDateDesc (episodesListCmd store search (some n)) ∧
     (∀ k : Int, k ≤ 0 →
       episodesListCmd store search (some k) = episodeMatches store search) ∧
     episodesListCmd store search none = (episodeMatches store search).take 10) ∧
    ((videosListCmd vstore vtype vsearch (some m)).length = m.toNat ∧
     videosListCmd vstore vtype vsearch (some m) =
       (videoMatches vstore vtype vsearch).take m.toNat ∧
     List.Sorted vidDateDesc (videosListCmd vstore vtype vsearch (some m)) ∧
     (∀ k : Int, k ≤ 0 →
       videosListCmd vstore vtype vsearch (some k) = videoMatches vstore vtype vsearch) ∧
     videosListCmd vstore vtype vsearch none =
       (videoMatches vstore vtype vsearch).take 10) := by
  have he1 : episodesListCmd store search (some n) =
      (episodeMatches store search).take n.toNat := by
    simp only [episodesListCmd, Option.getD_some]
    rw [if_pos hn]
  have hv1 : videosListCmd vstore vtype vsearch (some m) =
      (videoMatches vstore vtype vsearch).take m.toNat := by
    simp only [videosListCmd, Option.getD_some]
    rw [if_pos hm]
  refine ⟨⟨?_, he1, ?_, ?_, ?_⟩, ⟨?_, hv1, ?_, ?_, ?_⟩⟩
  · rw [he1, List.length_take]
    exact min_eq_left hnle
  · rw [he1]
    exact List.Pairwise.sublist (List.take_sublist _ _) (episodeMatches_sorted store search)
  · intro k hk
    simp only [episodesListCmd, Option.getD_some]
    rw [if_neg (not_lt.mpr hk)]
  · simp only [episodesListCmd, Option.getD_none]
    rw [if_pos (by norm_num)]
    rfl
  · rw [hv1, List.length_take]
    exact min_eq_left hmle
  · rw [hv1]
    exact List.Pairwise.sublist (List.take_sublist _ _)
      (videoMatches_sorted vstore vtype vsearch)
  · intro k hk
    simp only [videosListCmd, Option.getD_some]
    rw [if_neg (not_lt.mpr hk)]
  · simp only [videosListCmd, Option.getD_none]
    rw [if_pos (by norm_num)]
    rfl

/-- C7 witness: concrete limited listings on the 11-row stores. -/
theorem c7_witness :
    (episodesListCmd c7Store none (some 3)).length = (3 : Int).toNat ∧
    (videosListCmd c7VStore none none (some 2)).length = (2 : Int).toNat := by
  have h := c7_limit_semantics c7Store none 3 c7VStore none none 2
    (by decide) (by decide) (by decide) (by decide)
  exact ⟨h.1.1, h.2.1⟩

/-! ### Claim C4 -/

theorem getDownloadPath_occupied {fs : FS} {basePath fileName : String}
    {yes confirm : Bool} (h : fs.isfile (pathJoin basePath fileName) = true) :
    getDownloadPath fs basePath fileName yes confirm =
      (none, [Event.warnExists (pathJoin basePath fileName)]) := by
  simp only [getDownloadPath]
  rw [if_pos h]

/-- C4: a download of either kind whose resolved file name is already
occupied at the destination warns about the existing file, performs no
write, and returns the filesystem unchanged. -/
theorem c4_no_overwrite (fs : FS) (e : Episode) (dir : String)
    (yes confirm : Bool) (content : String) (vfs : FS)
    (vdir streamTitle vcontent : String) (vyes vconfirm : Bool)
    (h1 : fs.isfile (pathJoin dir (basename e.audio)) = true)
    (h2 : vfs.isfile (pathJoin vdir (vidFileName streamTitle)) = true) :
    downloadEpisode fs e dir yes confirm content =
      (fs, [Event.warnExists (pathJoin dir (basename e.audio))]) ∧
    downloadVideo vfs vdir vyes vconfirm streamTitle vcontent =
      (vfs, [Event.warnExists (pathJoin vdir (vidFileName streamTitle))]) := by
  constructor
  · simp only [downloadEpisode]
    rw [getDownloadPath_occupied h1]
  · simp only [downloadVideo]
    rw [getDownloadPath_occupied h2]

/-- C4 witness: concrete occupied destinations for both kinds; the
existing file content is untouched. -/
theorem c4_witness :
    downloadEpisode { files := [("d/f.m4a", "old")], dirs := ["d"] }
        (mkEpisode sampleEpCand) "d" true true "new" =
      ({ files := [("d/f.m4a", "old")], dirs := ["d"] },
        [Event.warnExists (pathJoin "d" (basename (mkEpisode sampleEpCand).audio))]) ∧
    downloadVideo { files := [("d/t.mp4", "old")], dirs := ["d"] } "d" true true
        "t.mp4" "new" =
      ({ files := [("d/t.mp4", "old")], dirs := ["d"] },
        [Event.warnExists (pathJoin "d" (vidFileName "t.mp4"))]) :=
  c4_no_overwrite { files := [("d/f.m4a", "old")], dirs := ["d"] }
    (mkEpisode sampleEpCand) "d" true true "new"
    { files := [("d/t.mp4", "old")], dirs := ["d"] } "d" "t.mp4" "new" true true
    (by decide) (by decide)

/-! ### Claim C5 -/

theorem getDownloadDir_files (fs : FS) (dest : Option String) (accountDir : String)
    (withModel : Bool) (modelName : String) :
    ((getDownloadDir fs dest accountDir withModel modelName).1).files = fs.files := by
  simp only [getDownloadDir]
  split <;> split <;> rfl

/-- C5 counterexample: requesting a download for an id absent from an
empty store reports the not-found error but still changes the
filesystem — the destination directory is created by `_get_download_dir`
before the id is looked up, so a filesystem write does occur. -/
theorem c5_counterexample :
    (downloadMinisodeCmd { files := [], dirs := [] } [] 1 false none "home" false "x").2 =
      [Event.errNotFound "minisode" 1] ∧
    (downloadMinisodeCmd { files := [], dirs := [] } [] 1 false none "home" false "x").1 ≠
      { files := [], dirs := [] } := by decide

/-- C5 (amended): a download request for an id not present in the store
reports a not-found error and writes no file — the file table is
returned unchanged — although the destination directory may be created
before the lookup. -/
theorem c5_notfound_no_file_write (fs : FS) (store : List Episode) (id : Nat)
    (yes : Bool) (dest : Option String) (accountDir : String) (confirm : Bool)
    (content : String) (vfs : FS) (vstore : List Video) (vid : Nat)
    (vyes vconfirm : Bool) (vdest : Option String) (vaccountDir : String)
    (vtitle vcontent : String)
    (h1 : getEpisode store id = none) (h2 : getVideo vstore vid = none) :
    (downloadMinisodeCmd fs store id yes dest accountDir confirm content).2 =
      [Event.errNotFound "minisode" id] ∧
    (downloadMinisodeCmd fs store id yes dest accountDir confirm content).1.files =
      fs.files ∧
    (downloadVideoCmd vfs vstore vid vyes vdest vaccountDir vconfirm vtitle vcontent).2 =
      [Event.errNotFound "video" vid] ∧
    (downloadVideoCmd vfs vstore vid vyes vdest vaccountDir vconfirm vtitle vcontent).1.files =
      vfs.files := by
  have hgE := getDownloadDir_files fs dest accountDir true "minisodes"
  rcases hg : getDownloadDir fs dest accountDir true "minisodes" with ⟨fs1, path⟩
  rw [hg] at hgE
  have hcmd : downloadMinisodeCmd fs store id yes dest accountDir confirm content =
      (fs1, [Event.errNotFound "minisode" id]) := by
    unfold downloadMinisodeCmd
    rw [hg, h1]
  have hgV := getDownloadDir_files vfs vdest vaccountDir true "videos"
  rcases hgv : getDownloadDir vfs vdest vaccountDir true "videos" with ⟨vfs1, vpath⟩
  rw [hgv] at hgV
  have hcmdv : downloadVideoCmd vfs vstore vid vyes vdest vaccountDir vconfirm vtitle vcontent =
      (vfs1, [Event.errNotFound "video" vid]) := by
    unfold downloadVideoCmd
    rw [hgv, h2]
  rw [hcmd, hcmdv]
  exact ⟨rfl, hgE, rfl, hgV⟩

/-- C5 witness: concrete not-found downloads leaving the file table
unchanged for both kinds. -/
theorem c5_witness :
    (downloadMinisodeCmd { files := [("keep", "k")], dirs := [] } [] 7 false none
      "home" false "x").2 = [Event.errNotFound "minisode" 7] ∧
    (downloadMinisodeCmd { files := [("keep", "k")], dirs := [] } [] 7 false none
      "home" false "x").1.files = [("keep", "k")] ∧
    (downloadVideoCmd { files := [("keep", "k")], dirs := [] } [] 8 false none
      "home" false "t" "x").2 = [Event.errNotFound "video" 8] ∧
    (downloadVideoCmd { files := [("keep", "k")], dirs := [] } [] 8 false none
      "home" false "t" "x").1.files = [("keep", "k")] :=
  c5_notfound_no_file_write { files := [("keep", "k")], dirs := [] } [] 7 false none
    "home" false "x" { files := [("keep", "k")], dirs := [] } [] 8 false false none
    "home" "t" "x" (by decide) (by decide)

/-! ### Claim C8 -/

/-- C8 counterexample: with two stored accounts and no explicit index
entered at the prompt, authentication does not fail — the prompt default
of 0 selects the first account and login proceeds with it. -/
theorem c8_counterexample :
    loginUser [acctA, acctB] none true = some acctA := by decide

/-- C8 (amended): when more than one account row exists, the user is
prompted to pick an index; absent an explicit selection the prompt
default (index 0) chooses the first account, and login proceeds with it
when the login request succeeds — session authentication does not fail
on account multiplicity alone. -/
theorem c8_default_selection (a b : Account) (rest : List Account) (ok : Bool) :
    getAccount (a :: b :: rest) none = some a ∧
    loginUser (a :: b :: rest) none ok = if ok then some a else none :=
  ⟨rfl, rfl⟩

/-! ### Claim C9 -/

theorem episodeFeedEntries_cover (store : List Episode)
    (head : String → Option String × Option String) :
    ∀ e ∈ store, ∃ en ∈ episodeFeedEntries store head,
      en.id = toString e.minisode_id ∧ en.title = e.title ∧
        en.enclosureUrl = e.audio := by
  intro e he
  refine ⟨mkEpisodeEntry head e, ?_, rfl, rfl, rfl⟩
  unfold episodeFeedEntries episodeFeedQuery
  exact List.mem_map_of_mem _
    (((List.perm_insertionSort epDateAsc store).mem_iff).mpr he)

/-- C9: feed synthesis in print mode leaves the filesystem untouched and
emits to the console a document whose entries carry each stored
episode's id, title and enclosure URL; for either kind, print mode
writes no file while emitting a console document, and file mode writes
exactly the per-kind feed file while emitting nothing to the console —
never both. -/
theorem c9_feed_print_console (fs : FS) (store : List Episode) (dir : String)
    (head : String → Option String × Option String) (year : Nat)
    (vfs : FS) (vstore : List Video) (vdir : String) (limit : Nat) :
    ((createEpisodeFeed fs store dir true head year).1 = fs ∧
     ∃ doc, (createEpisodeFeed fs store dir true head year).2.1 = some doc ∧
       ∀ e ∈ store, ∃ en ∈ doc.entries,
         en.id = toString e.minisode_id ∧ en.title = e.title ∧
           en.enclosureUrl = e.audio) ∧
    (∀ pm : Bool,
      (pm = true → (createEpisodeFeed fs store dir pm head year).1 = fs ∧
        (createEpisodeFeed fs store dir pm head year).2.1.isSome = true) ∧
      (pm = false → (createEpisodeFeed fs store dir pm head year).2.1 = none ∧
        ∃ d, (createEpisodeFeed fs store dir pm head year).1 =
          fs.writeFile (pathJoin dir "minisodes.xml") (serializeEpFeed d))) ∧
    (∀ pm : Bool,
      (pm = true → (createVideoFeed vfs vstore vdir pm limit year).1 = vfs ∧
        (createVideoFeed vfs vstore vdir pm limit year).2.1.isSome = true) ∧
      (pm = false → (createVideoFeed vfs vstore vdir pm limit year).2.1 = none ∧
        ∃ d, (createVideoFeed vfs vstore vdir pm limit year).1 =
          vfs.writeFile (pathJoin vdir "videos.xml") (serializeVidFeed d))) := by
  refine ⟨⟨rfl, ⟨{ channel := getRssFeedGenerator "minisodes" true year, entries := episodeFeedEntries store head }, rfl, ?_⟩⟩, ?_, ?_⟩
  · exact episodeFeedEntries_cover store head
  · intro pm
    constructor
    · rintro rfl
      exact ⟨rfl, rfl⟩
    · rintro rfl
      exact ⟨rfl, ⟨_, rfl⟩⟩
  · intro pm
    constructor
    · rintro rfl
      exact ⟨rfl, rfl⟩
    · rintro rfl
      exact ⟨rfl, ⟨_, rfl⟩⟩

/-- C9 witness: a concrete one-episode store in print mode. -/
theorem c9_witness :
    (createEpisodeFeed { files := [], dirs := [] } [mkEpisode sampleEpCand] "d" true
      (fun _ => ((none : Option String), (none : Option String))) 2026).1 =
      { files := [], dirs := [] } ∧
    ∃ doc, (createEpisodeFeed { files := [], dirs := [] } [mkEpisode sampleEpCand] "d"
        true (fun _ => ((none : Option String), (none : Option String))) 2026).2.1 =
      some doc ∧
      ∀ e ∈ [mkEpisode sampleEpCand], ∃ en ∈ doc.entries,
        en.id = toString e.minisode_id ∧ en.title = e.title ∧
          en.enclosureUrl = e.audio :=
  (c9_feed_print_console { files := [], dirs := [] } [mkEpisode sampleEpCand] "d"
    (fun _ => ((none : Option String), (none : Option String))) 2026
    { files := [], dirs := [] } [] "d" 25).1

/-! ### Claim C10 -/

/-- C10: the episode listing places row values in the order [id, date,
title, shortened description, shortened url] under the header row [ID,
Title, Description, Date, URL]: the rendered date sits under the Title
header, the title under Description, and the shortened description
under Date. -/
theorem c10_header_misalignment (eps : List Episode) (i : Nat) (e : Episode)
    (h : eps[i]? = some e) :
    (format_episode_list eps).headers = ["ID", "Title", "Description", "Date", "URL"] ∧
    (format_episode_list eps).rows[i]? =
      some [toString e.minisode_id, formatDate e.date, e.title,
        shorten e.description 50, shorten e.url 50] ∧
    ((format_episode_list eps).headers[1]? = some "Title" ∧
      ((format_episode_list eps).rows[i]?.bind (fun r => r[1]?)) =
        some (formatDate e.date)) ∧
    ((format_episode_list eps).headers[2]? = some "Description" ∧
      ((format_episode_list eps).rows[i]?.bind (fun r => r[2]?)) = some e.title) ∧
    ((format_episode_list eps).headers[3]? = some "Date" ∧
      ((format_episode_list eps).rows[i]?.bind (fun r => r[3]?)) =
        some (shorten e.description 50)) := by
  have hrow : (format_episode_list eps).rows[i]? =
      some [toString e.minisode_id, formatDate e.date, e.title,
        shorten e.description 50, shorten e.url 50] := by
    show (eps.map _)[i]? = _
    rw [List.getElem?_map, h]
    rfl
  refine ⟨rfl, hrow, ⟨rfl, ?_⟩, ⟨rfl, ?_⟩, ⟨rfl, ?_⟩⟩ <;> rw [hrow] <;> rfl

/-- C10 witness: the date cell of a concrete one-row listing sits under
the Title header. -/
theorem c10_witness :
    (format_episode_list [mkEpisode sampleEpCand]).headers[1]? = some "Title" ∧
    ((format_episode_list [mkEpisode sampleEpCand]).rows[0]?.bind (fun r => r[1]?)) =
      some (formatDate (mkEpisode sampleEpCand).date) :=
  (c10_header_misalignment [mkEpisode sampleEpCand] 0 (mkEpisode sampleEpCand)
    rfl).2.2.1
